import Mathlib

/-!
Verification of the grouped statistical summarization and histogram/binning
engine of `enb/aanalysis.py` (experiment-notebook repository).

The Python code is shallowly embedded: machine floats are modelled by exact
rationals (`ℚ`), extended with explicit infinities and NaN where the code
manipulates them (`PyFloat`); Python dictionaries holding rendering keyword
arguments are modelled as association lists; raised exceptions are modelled
with `Except`.

Components embedded here:
* `HistogramKeyBinner.__init__` / `__call__` (bin width, interval labels and
  the per-key dispatch, including Python's negative-index wraparound semantics
  of `index_to_sum[floor((k - min_value) / bin_width)] += v`);
* `ScalarNumericSummary.compute_plottable_data_one_case` (analysis-range
  resolution, degenerate-range widening, `np.histogram` counting,
  mass-conservation validation and normalization);
* `Analyzer.__init__` render-mode validation;
* `TwoColumnLineAnalyzer.analyze_df` (per-task row-count validation, per-family
  point sorting, global x-bound computation);
* `Analyzer.update_render_kwargs_one_case` and its
  `ScalarNumericAnalyzer` override.
-/

/-! ### HistogramKeyBinner -/

/-- Bin width computed in `HistogramKeyBinner.__init__`:
`self.bin_width = max(1e-10, (max_value - min_value) / self.bin_count)`. -/
def hkbBinWidth (minValue maxValue : ℚ) (binCount : ℕ) : ℚ :=
  max (1 / 10000000000) ((maxValue - minValue) / binCount)

/-- Model of `numpy.linspace(a, b, n, endpoint=True)` over exact rationals:
for `n ≥ 2` the points are `a + i * (b - a) / (n - 1)`, for `n = 1` the single
point `a`, and the empty list for `n = 0`. -/
def npLinspace (a b : ℚ) (n : ℕ) : List ℚ :=
  if n = 1 then [a]
  else (List.range n).map (fun i => a + i * (b - a) / ((n : ℚ) - 1))

/-- The `self.intervals` attribute of `HistogramKeyBinner.__init__`:
    intervals = [(m, min(m + bin_width, max_value))
                 for m in np.linspace(min_value, max(min_value, max_value - bin_width),
                                      bin_count, endpoint=True)]. -/
def hkbIntervals (minValue maxValue : ℚ) (binCount : ℕ) : List (ℚ × ℚ) :=
  (npLinspace minValue (max minValue (maxValue - hkbBinWidth minValue maxValue binCount))
      binCount).map
    (fun m => (m, min (m + hkbBinWidth minValue maxValue binCount) maxValue))

/-- Destination bin of one key in `HistogramKeyBinner.__call__`.  The source
executes `index_to_sum[math.floor((k - self.min_value) / self.bin_width)] += v`
inside `try: ... except IndexError:`; Python list indexing accepts any index
`i` with `-len ≤ i < len`, where a negative `i` addresses element `len + i`
(wraparound), and raises `IndexError` otherwise.  On `IndexError`, the weight
goes to the last bin when `k == max_value` and is otherwise ignored (`none`). -/
def keyBinIndex (minValue maxValue : ℚ) (binCount : ℕ) (k : ℚ) : Option ℕ :=
  let i : ℤ := ⌊(k - minValue) / hkbBinWidth minValue maxValue binCount⌋
  if 0 ≤ i ∧ i < (binCount : ℤ) then some i.toNat
  else if -(binCount : ℤ) ≤ i ∧ i < 0 then some ((binCount : ℤ) + i).toNat
  else if k = maxValue then some (binCount - 1)
  else none

/-- Accumulated state of `HistogramKeyBinner.__call__`: the per-bin sums
`index_to_sum`, the total input weight `total_sum`, and the weight of ignored
(out-of-range, non-wrapped) keys `ignored_sum`. -/
structure HKBResult where
  indexToSum : List ℚ
  totalSum : ℚ
  ignoredSum : ℚ
deriving DecidableEq

/-- Add `v` to position `i` of the per-bin sum list. -/
def listAddAt (l : List ℚ) (i : ℕ) (v : ℚ) : List ℚ :=
  l.set i (l.getD i 0 + v)

/-- Model of the accumulation loop of `HistogramKeyBinner.__call__`: the input
dictionary is a key/weight association list; each weight is routed by
`keyBinIndex` either into a bin or into the ignored total, and every weight is
added to the running total. -/
def histogramKeyBinnerCall (minValue maxValue : ℚ) (binCount : ℕ)
    (inputDict : List (ℚ × ℚ)) : HKBResult :=
  inputDict.foldl
    (fun acc kv =>
      match keyBinIndex minValue maxValue binCount kv.1 with
      | some j =>
        { acc with
          indexToSum := listAddAt acc.indexToSum j kv.2
          totalSum := acc.totalSum + kv.2 }
      | none =>
        { acc with
          totalSum := acc.totalSum + kv.2
          ignoredSum := acc.ignoredSum + kv.2 })
    ⟨List.replicate binCount 0, 0, 0⟩

/-- The output dictionary values built at the end of
`HistogramKeyBinner.__call__`: each bin sum divided by the total weight when
`normalize` is set, else divided by 1. -/
def hkbOutputDict (r : HKBResult) (normalize : Bool) : List ℚ :=
  r.indexToSum.map (fun s => s / (if normalize then r.totalSum else 1))

/-! ### PyFloat: Python floats with infinities and NaN -/

/-- Python float values as manipulated by the analysis code: exact finite
values plus `float("inf")`, `float("-inf")` and `float("nan")`. -/
inductive PyFloat where
  | finite (q : ℚ)
  | posInf
  | negInf
  | nan
deriving DecidableEq

/-- Test modelling `math.isnan`. -/
def PyFloat.isNanB : PyFloat → Bool
  | .nan => true
  | _ => false

/-- Test modelling `math.isinf`. -/
def PyFloat.isInfB : PyFloat → Bool
  | .posInf => true
  | .negInf => true
  | _ => false

/-- Python float comparison `a < b`; any comparison involving NaN is false. -/
def PyFloat.ltB : PyFloat → PyFloat → Bool
  | .finite a, .finite b => a < b
  | .finite _, .posInf => true
  | .negInf, .finite _ => true
  | .negInf, .posInf => true
  | _, _ => false

/-- Python `min(a, b)`: returns `b` if `b < a`, else `a`. -/
def pyMin (a b : PyFloat) : PyFloat :=
  if PyFloat.ltB b a then b else a

/-- Python `max(a, b)`: returns `b` if `a < b`, else `a`. -/
def pyMax (a b : PyFloat) : PyFloat :=
  if PyFloat.ltB a b then b else a

/-- Minimum of a list of Python floats (`min` over a nonempty sequence);
the empty list yields NaN as a placeholder for the undefined case. -/
def pyListMin : List PyFloat → PyFloat
  | [] => .nan
  | x :: xs => xs.foldl pyMin x

/-- Maximum of a list of Python floats. -/
def pyListMax : List PyFloat → PyFloat
  | [] => .nan
  | x :: xs => xs.foldl pyMax x

/-- The `min` and `max` fields of `pandas.Series.describe()` as read by
`set_scalar_description` into `row[column + "_min"]` and
`row[column + "_max"]`: NaN entries are skipped, infinities participate,
and an all-NaN (or empty) series yields NaN. -/
def describeMinMax (l : List PyFloat) : PyFloat × PyFloat :=
  let kept := l.filter (fun x => !x.isNanB)
  (pyListMin kept, pyListMax kept)

/-! ### ScalarNumericSummary.compute_plottable_data_one_case -/

/-- Bin index assigned by `np.histogram(..., range=(lo, hi), density=False)`
with `bins` equal-width subintervals of `[lo, hi]`, in exact arithmetic:
a finite sample `x` inside `[lo, hi]` lands in bin
`min(floor((x - lo) * bins / (hi - lo)), bins - 1)` (the last bin is closed
on the right); samples outside the range, and infinite samples, are not
counted. -/
def binIndexNp (lo hi : ℚ) (bins : ℕ) (x : PyFloat) : Option ℕ :=
  match x with
  | .finite q =>
    if lo ≤ q ∧ q ≤ hi then
      some (min (⌊(q - lo) * bins / (hi - lo)⌋).toNat (bins - 1))
    else none
  | _ => none

/-- The absolute counts `hist_y_values` returned by
`np.histogram(column_series.dropna(), bins, range=(lo, hi), density=False)`:
NaN entries are dropped first (`dropna`), then each bin counts the samples
it receives. -/
def npHistogramCounts (lo hi : ℚ) (bins : ℕ) (samples : List PyFloat) : List ℕ :=
  (List.range bins).map
    (fun j => (samples.filter (fun x => !x.isNanB)).countP
      (fun x => binIndexNp lo hi bins x == some j))

/-- The `justified_difference` flag computed when the histogram mass differs
from the series length: true when the recorded column min or max is infinite
(`math.isinf(row[min]) or math.isinf(row[max])`) or the analysis range is
strictly narrower than the recorded min/max
(`analysis_range[0] > row[min] or analysis_range[1] < row[max]`). -/
def justifiedDifference (samples : List PyFloat) (lo hi : ℚ) : Bool :=
  let mM := describeMinMax samples
  mM.1.isInfB || mM.2.isInfB
    || PyFloat.ltB mM.1 (.finite lo) || PyFloat.ltB (.finite hi) mM.2

/-- One endpoint of `analysis_range` in `compute_plottable_data_one_case`:
the `plot_min`/`plot_max` column property when set, else the recorded global
min/max of the column (`column_to_xmin_xmax`). -/
def resolveEndpoint (p : Option ℚ) (g : PyFloat) : PyFloat :=
  match p with
  | some q => PyFloat.finite q
  | none => g

/-- Degenerate-range widening and the finite-range ordering check performed by
`np.histogram`: a range with `lo == hi` is first widened to `[lo, lo + 1]`
(source lines 587-589), and a reversed range is rejected by `np.histogram`. -/
def rangeWidenCheck (a b : ℚ) : Except String (ℚ × ℚ) :=
  if a = b then Except.ok (a, a + 1)
  else if b < a then Except.error "max must be larger than min in range parameter"
  else Except.ok (a, b)

/-- Resolution of the full `analysis_range`: resolve both endpoints, reject a
non-finite range (as `np.histogram` does), then widen/check. -/
def resolveAnalysisRange (plotMin plotMax : Option ℚ) (gmin gmax : PyFloat) :
    Except String (ℚ × ℚ) :=
  match resolveEndpoint plotMin gmin, resolveEndpoint plotMax gmax with
  | PyFloat.finite a, PyFloat.finite b => rangeWidenCheck a b
  | _, _ => Except.error "supplied range is not finite"

/-- Histogram data produced by `compute_plottable_data_one_case` for one
(group, column) case: the absolute bin counts, the bin-center x values, the
relative-frequency y values, and whether a (justified) mass discrepancy was
logged. -/
structure HistOutput where
  counts : List ℕ
  xValues : List ℚ
  yValues : List ℚ
  massWarning : Bool

/-- Bin centers `0.5 * (bin_edges[:-1] + bin_edges[1:])`. -/
def binCenters (lo hi : ℚ) (bins : ℕ) : List ℚ :=
  (List.range bins).map (fun j => lo + ((j : ℚ) + 1 / 2) * (hi - lo) / bins)

/-- Counting, validation and normalization core of
`ScalarNumericSummary.compute_plottable_data_one_case` once the analysis
range `[lo, hi]` is fixed (the packaging of the result into `plotdata`
descriptors, which depends on the absent `enb.atable` substrate, is elided;
the returned `HistOutput` carries the data those descriptors receive).
A mass discrepancy is fatal (`raise ValueError`) unless justified by recorded
infinities or a clipped analysis range, in which case it is only logged;
counts are normalized by the total count unless that total is zero. -/
def histogramCase (bins : ℕ) (samples : List PyFloat) (lo hi : ℚ) :
    Except String HistOutput :=
  if (npHistogramCounts lo hi bins samples).sum ≠ samples.length
      ∧ justifiedDifference samples lo hi = false then
    Except.error "Not all samples are included in the scalar value histogram"
  else
    Except.ok
      { counts := npHistogramCounts lo hi bins samples
        xValues := binCenters lo hi bins
        yValues :=
          if (npHistogramCounts lo hi bins samples).sum ≠ 0 then
            (npHistogramCounts lo hi bins samples).map
              (fun (c : ℕ) => (c : ℚ) / ((npHistogramCounts lo hi bins samples).sum : ℚ))
          else (npHistogramCounts lo hi bins samples).map (fun (c : ℕ) => (c : ℚ))
        massWarning := (npHistogramCounts lo hi bins samples).sum != samples.length }

/-- Full model of the numeric pipeline: reject an invalid bin count (as
`np.histogram` does), resolve the analysis range, then run the counting,
validation and normalization of `histogramCase`. -/
def computePlottableOneCase (plotMin plotMax : Option ℚ) (gmin gmax : PyFloat)
    (bins : ℕ) (samples : List PyFloat) : Except String HistOutput :=
  if bins = 0 then Except.error "bins must be positive"
  else
    match resolveAnalysisRange plotMin plotMax gmin gmax with
    | Except.error e => Except.error e
    | Except.ok (lo, hi) => histogramCase bins samples lo hi

/-! ### Analyzer.__init__ mode validation -/

/-- The validation loop of `Analyzer.__init__`: every selected render mode
must be a member of the valid render modes, else the constructor raises
(`SyntaxError` in the source; the spec taxonomy names this
ConfigurationError).  The mode sets are modelled as lists; the first
offending mode in iteration order is reported. -/
def analyzerInitModeCheck (validModes selectedModes : List String) :
    Except String Unit :=
  match selectedModes.find? (fun m => !(validModes.contains m)) with
  | some m =>
    Except.error ("Selected mode " ++ m ++ " not in the list of available modes")
  | none => Except.ok ()

/-! ### TwoColumnLineAnalyzer.analyze_df -/

/-- The running `data_point_count` check of `TwoColumnLineAnalyzer.analyze_df`:
`data_point_count` is `None` before the first task is seen, is then set to the
first task's row count, and every later task must contribute the same number
of rows — `assert data_point_count == len(rows)` — else the analysis raises
(`AssertionError` naming the offending task in the source; the spec taxonomy
names this ConfigurationError).  The model's error value is the offending
task name carried by that message. -/
def checkTaskRowCounts (rowCount : String → ℕ) :
    Option ℕ → List String → Except String Unit
  | _, [] => Except.ok ()
  | none, t :: ts => checkTaskRowCounts rowCount (some (rowCount t)) ts
  | some n, t :: ts =>
    if rowCount t = n then checkTaskRowCounts rowCount (some n) ts
    else Except.error t

/-- The row-count validation over all task families, visiting tasks family by
family in order (`for family in group_by: for task_name in
family.task_names:`); `rowCount` gives the number of rows of
`full_df[full_df[task_column_name] == task_name]`. -/
def twoColumnLineRowCountCheck (families : List (List String))
    (rowCount : String → ℕ) : Except String Unit :=
  checkTaskRowCounts rowCount none families.flatten

/-- numpy-style mean of a sequence (`x_data.mean()`), as `sum / length`. -/
def qMean (l : List ℚ) : ℚ := l.sum / l.length

/-- Order-isomorphic representative of `x_data.std()` (numpy population
standard deviation): the model stores the variance, std squared.  The std
values enter the sorted per-task tuples only through order comparisons, on
ties of all earlier components, and squaring is a strictly monotone bijection
on the nonnegative std values, so sorting is unaffected. -/
def qVar (l : List ℚ) : ℚ :=
  ((l.map (fun x => (x - qMean l) ^ 2)).sum) / l.length

/-- Minimum of a rational list (`x_data.min()`; only applied to nonempty
data in the source, the default is never reached there). -/
def qListMinD (l : List ℚ) : ℚ := l.min?.getD 0

/-- Maximum of a rational list (`x_data.max()`). -/
def qListMaxD (l : List ℚ) : ℚ := l.max?.getD 0

/-- The per-task 8-tuple collected into `family_data` by
`TwoColumnLineAnalyzer.analyze_df` when the task has data
(`if x_data.size and y_data.size:`):
`(mean_x, mean_y, max_x - mean_x, mean_x - min_x, max_y - mean_y,
mean_y - min_y, std_x, std_y)`.  The Python tuple is modelled as a list of
rationals (std represented by variance, see `qVar`); the coordinate data is
taken after the non-finite filtering, hence rational. -/
def taskStats (xs ys : List ℚ) : Option (List ℚ) :=
  if xs = [] ∨ ys = [] then none
  else
    some [qMean xs, qMean ys,
          qListMaxD xs - qMean xs, qMean xs - qListMinD xs,
          qListMaxD ys - qMean ys, qMean ys - qListMinD ys,
          qVar xs, qVar ys]

/-- The sorted `family_data = sorted(family_data)` of one family: Python
sorts tuples under the total, antisymmetric lexicographic order, and any
sorted permutation under such an order is unique, so insertion sort under the
lexicographic order on rational lists (Mathlib's linear order on `List ℚ`)
is an exact model of the produced list. -/
def familySortedData (tasks : List (List ℚ × List ℚ)) : List (List ℚ) :=
  List.insertionSort (· ≤ ·) (tasks.filterMap (fun p => taskStats p.1 p.2))

/-- The `x_values` handed to the produced `plotdata.LineData` (and to every
ErrorLines descriptor of the family): first components of the sorted tuples. -/
def lineDataXValues (tasks : List (List ℚ × List ℚ)) : List ℚ :=
  (familySortedData tasks).map (fun t => t.headI)

/-- Conversion of the final float-or-None bound to an optional rational. -/
def pyToOption : PyFloat → Option ℚ
  | .finite q => some q
  | _ => none

set_option linter.unusedVariables false in
/-- The global x-bound computation at the end of
`TwoColumnLineAnalyzer.analyze_df` (source lines 1745-1759).  The `try`
block reads `plot_min`/`plot_max` of the x column into
`(global_min_x, global_max_x)`, but both variables are unconditionally
reassigned immediately afterwards, so `plotProps` is dead.  The loop then
accumulates `global_min_x = min(global_min_x, min(pld.x_values))` and —
sic, `min` again where the surrounding code clearly intends `max` —
`global_max_x = min(global_max_x, max(pld.x_values))`, starting from
`float("inf")` and `float("-inf")` respectively; if either remains infinite,
both bounds are replaced by `None`. -/
def computeGlobalXBounds (plotProps : Option ℚ × Option ℚ)
    (xValueLists : List (List ℚ)) : Option ℚ × Option ℚ :=
  if (xValueLists.foldl (fun acc xs => pyMin acc (.finite (qListMinD xs)))
        PyFloat.posInf).isInfB
      || (xValueLists.foldl (fun acc xs => pyMin acc (.finite (qListMaxD xs)))
        PyFloat.negInf).isInfB
  then (none, none)
  else
    (pyToOption (xValueLists.foldl (fun acc xs => pyMin acc (.finite (qListMinD xs)))
        PyFloat.posInf),
     pyToOption (xValueLists.foldl (fun acc xs => pyMin acc (.finite (qListMaxD xs)))
        PyFloat.negInf))

/-! ### Analyzer.update_render_kwargs_one_case -/

/-- Lookup in the rendering keyword-argument dictionary
(`"k" in column_kwargs` / `column_kwargs["k"]`), modelled as an association
list over an arbitrary value type. -/
def kwGet {V : Type} (kw : List (String × V)) (k : String) : Option V :=
  (kw.find? (fun p => p.1 == k)).map (fun p => p.2)

/-- Assignment `column_kwargs["k"] = v`: a Python dict overwrite. -/
def kwSet {V : Type} (kw : List (String × V)) (k : String) (v : V) :
    List (String × V) :=
  (k, v) :: kw.filter (fun p => !(p.1 == k))

/-- The fill-in pattern `if "k" not in column_kwargs: column_kwargs["k"] = v`. -/
def kwSetIfAbsent {V : Type} (kw : List (String × V)) (k : String) (v : V) :
    List (String × V) :=
  if (kwGet kw k).isSome then kw else kwSet kw k v

/-- The values `update_render_kwargs_one_case` computes from its non-kwargs
arguments: the derived output plot path and descriptor dictionary (always
assigned), the fallback column properties and labels, the analyzer's alpha
attributes selecting which `global_y_label` text applies, the x bounds from
the per-group min/max statistics, the `common_group_scale` flag and the
shared y bounds scanned from the bar descriptors. -/
structure RenderCtx (V : Type) where
  outputPlotPath : V
  pdsByGroupName : V
  columnProperties : V
  globalXLabel : V
  yLabelsByGroupName : V
  mainAlpha : ℚ
  secondaryAlpha : ℚ
  yLabelMainAndSecondary : V
  yLabelMainOnly : V
  yLabelSecondaryOnly : V
  xMinComputed : V
  xMaxComputed : V
  commonGroupScale : Bool
  yMinComputed : V
  yMaxComputed : V

/-- Base `Analyzer.update_render_kwargs_one_case`: always overwrite
`output_plot_path` and `pds_by_group_name`, then fill in
`column_properties`, `global_x_label` and `y_labels_by_group_name` only when
absent. -/
def analyzerUpdateRenderKwargs {V : Type} (ctx : RenderCtx V)
    (kw : List (String × V)) : List (String × V) :=
  kwSetIfAbsent
    (kwSetIfAbsent
      (kwSetIfAbsent
        (kwSet (kwSet kw "output_plot_path" ctx.outputPlotPath)
          "pds_by_group_name" ctx.pdsByGroupName)
        "column_properties" ctx.columnProperties)
      "global_x_label" ctx.globalXLabel)
    "y_labels_by_group_name" ctx.yLabelsByGroupName

/-- The `global_y_label` step of `ScalarNumericAnalyzer`'s override: only
when the key is absent, choose the label from the alpha attributes
(`main_alpha != 0` picks the histogram label, optionally extended when
`secondary_alpha != 0`; otherwise the secondary-only label; when both alphas
are zero only a warning is emitted and nothing is set). -/
def yLabelStep {V : Type} (ctx : RenderCtx V) (kw : List (String × V)) :
    List (String × V) :=
  if (kwGet kw "global_y_label").isSome then kw
  else if ctx.mainAlpha ≠ 0 then
    kwSet kw "global_y_label"
      (if ctx.secondaryAlpha ≠ 0 then ctx.yLabelMainAndSecondary
       else ctx.yLabelMainOnly)
  else if ctx.secondaryAlpha ≠ 0 then
    kwSet kw "global_y_label" ctx.yLabelSecondaryOnly
  else kw

/-- The common-scale step: when `common_group_scale` is set and `y_min` or
`y_max` is absent, the shared bounds are computed and each absent one is
filled in. -/
def yBoundsStep {V : Type} (ctx : RenderCtx V) (kw : List (String × V)) :
    List (String × V) :=
  if ctx.commonGroupScale
      ∧ ((kwGet kw "y_min").isNone ∨ (kwGet kw "y_max").isNone) then
    kwSetIfAbsent (kwSetIfAbsent kw "y_min" ctx.yMinComputed)
      "y_max" ctx.yMaxComputed
  else kw

/-- Full `ScalarNumericAnalyzer.update_render_kwargs_one_case`: the base
update, the `global_y_label` step, the `x_min`/`x_max` fill-ins from the
column statistics, and the common-scale y-bound step. -/
def scalarNumericUpdateRenderKwargs {V : Type} (ctx : RenderCtx V)
    (kw : List (String × V)) : List (String × V) :=
  yBoundsStep ctx
    (kwSetIfAbsent
      (kwSetIfAbsent (yLabelStep ctx (analyzerUpdateRenderKwargs ctx kw))
        "x_min" ctx.xMinComputed)
      "x_max" ctx.xMaxComputed)

/-! ### Theorems -/

/-- C3: for `HistogramKeyBinner(min_value=0, max_value=10, bin_count=5)`,
every in-range key `k` is assigned to bin `floor((k - min_value) / bin_width)`
(bin width 2); key 10 (equal to `max_value`) is forced into the last bin
(index 4), key 0 goes to the first bin (index 0), and key 7 goes to bin 3,
whose interval is `[6, 8)`. -/
theorem claim_C3 :
    (∀ k : ℚ, 0 ≤ k → k < 10 → keyBinIndex 0 10 5 k = some (⌊k / 2⌋).toNat)
    ∧ keyBinIndex 0 10 5 10 = some 4
    ∧ keyBinIndex 0 10 5 0 = some 0
    ∧ keyBinIndex 0 10 5 7 = some 3
    ∧ (hkbIntervals 0 10 5)[3]? = some (6, 8) := by
  have hw : hkbBinWidth 0 10 5 = 2 := by
    rw [hkbBinWidth]
    norm_num
  refine ⟨?_, ?_, ?_, ?_, ?_⟩
  · intro k h0 h10
    rw [keyBinIndex, hw]
    have hfl0 : (0 : ℤ) ≤ ⌊(k - 0) / 2⌋ := by
      apply Int.le_floor.mpr
      push_cast
      linarith
    have hfl5 : ⌊(k - 0) / 2⌋ < (5 : ℤ) := by
      apply Int.floor_lt.mpr
      push_cast
      linarith
    rw [if_pos ⟨hfl0, hfl5⟩]
    norm_num
  · simp only [keyBinIndex, hw]
    rw [show ((10 : ℚ) - 0) / 2 = ((5 : ℤ) : ℚ) by norm_num, Int.floor_intCast]
    norm_num
  · simp only [keyBinIndex, hw]
    rw [show ((0 : ℚ) - 0) / 2 = ((0 : ℤ) : ℚ) by norm_num, Int.floor_intCast]
    norm_num
  · simp only [keyBinIndex, hw]
    rw [show ((7 : ℚ) - 0) / 2 = ((7 : ℚ) / 2) by norm_num,
      show ⌊(7 : ℚ) / 2⌋ = (3 : ℤ) by
        rw [Int.floor_eq_iff]
        norm_num]
    norm_num [Int.toNat_ofNat]
    decide
  · have hrange : List.range 5 = [0, 1, 2, 3, 4] := rfl
    simp only [hkbIntervals, npLinspace, hw, hrange]
    norm_num [max_def, min_def]

/-- Witness for C3: the universally quantified part applied at the concrete
in-range key 7. -/
theorem claim_C3_witness :
    (0 : ℚ) ≤ 7 ∧ (7 : ℚ) < 10
    ∧ keyBinIndex 0 10 5 7 = some (⌊(7 : ℚ) / 2⌋).toNat :=
  ⟨by norm_num, by norm_num, claim_C3.1 7 (by norm_num) (by norm_num)⟩

/-- C2 (code behaviour at the claimed example): binning the mapping
`{-5: 1, 3: 2, 12: 1}` with `min_value=0, max_value=10, bin_count=2`
(bin width 5) ignores only weight 1 out of total weight 4 — not 2 as claimed.
The key `-5` yields `floor(-5 / 5) = -1`, a valid *negative* Python index, so
its weight is silently added to the last bin (index 1) instead of being
ignored. -/
theorem claim_C2_code_behavior :
    histogramKeyBinnerCall 0 10 2 [(-5, 1), (3, 2), (12, 1)]
      = ⟨[2, 1], 4, 1⟩
    ∧ keyBinIndex 0 10 2 (-5) = some 1 := by
  have hw : hkbBinWidth 0 10 2 = 5 := by
    rw [hkbBinWidth]
    norm_num
  have h1 : keyBinIndex 0 10 2 (-5) = some 1 := by
    simp only [keyBinIndex, hw]
    rw [show ((-5 : ℚ) - 0) / 5 = ((-1 : ℤ) : ℚ) by norm_num, Int.floor_intCast]
    norm_num
  have h2 : keyBinIndex 0 10 2 3 = some 0 := by
    simp only [keyBinIndex, hw]
    rw [show ((3 : ℚ) - 0) / 5 = ((3 : ℚ) / 5) by norm_num,
      show ⌊(3 : ℚ) / 5⌋ = (0 : ℤ) by
        rw [Int.floor_eq_iff]
        norm_num]
    norm_num
  have h3 : keyBinIndex 0 10 2 12 = none := by
    simp only [keyBinIndex, hw]
    rw [show ((12 : ℚ) - 0) / 5 = ((12 : ℚ) / 5) by norm_num,
      show ⌊(12 : ℚ) / 5⌋ = (2 : ℤ) by
        rw [Int.floor_eq_iff]
        norm_num]
    norm_num
  refine ⟨?_, h1⟩
  simp only [histogramKeyBinnerCall, List.foldl_cons, List.foldl_nil, h1, h2, h3]
  norm_num [listAddAt, HKBResult.mk.injEq]
  rfl

/-- C1: whenever the pre-histogram steps succeed and the counted histogram
mass differs from the series length, the computation raises (ValueError,
the spec's DataRangeError) exactly when the discrepancy is not justified;
when it is justified — recorded column min or max infinite, or analysis
range strictly narrower than the recorded min/max — the case succeeds and
the discrepancy is only logged (massWarning). -/
theorem claim_C1 (plotMin plotMax : Option ℚ) (gmin gmax : PyFloat) (bins : ℕ)
    (samples : List PyFloat) (lo hi : ℚ)
    (hbins : bins ≠ 0)
    (hrange : resolveAnalysisRange plotMin plotMax gmin gmax = Except.ok (lo, hi))
    (hmismatch : (npHistogramCounts lo hi bins samples).sum ≠ samples.length) :
    (justifiedDifference samples lo hi = false →
      computePlottableOneCase plotMin plotMax gmin gmax bins samples
        = Except.error "Not all samples are included in the scalar value histogram")
    ∧ (justifiedDifference samples lo hi = true →
      ∃ out,
        computePlottableOneCase plotMin plotMax gmin gmax bins samples = Except.ok out
        ∧ out.massWarning = true) := by
  rw [computePlottableOneCase, if_neg hbins, hrange]
  have hred :
      (match Except.ok (lo, hi) with
        | Except.error e => (Except.error e : Except String HistOutput)
        | Except.ok (lo, hi) => histogramCase bins samples lo hi)
      = histogramCase bins samples lo hi := rfl
  rw [hred]
  constructor
  · intro hjust
    rw [histogramCase, if_pos ⟨hmismatch, hjust⟩]
  · intro hjust
    rw [histogramCase, if_neg (by simp [hjust])]
    exact ⟨_, rfl, by simp [bne_iff_ne, hmismatch]⟩

/-- Witness for C1: a two-element series holding one finite value and one NaN
(whose recorded min/max are finite and inside the default analysis range)
loses the NaN in the histogram, so the mass differs unjustifiedly and the
computation fails. -/
theorem claim_C1_witness :
    ((2 : ℕ) ≠ 0)
    ∧ resolveAnalysisRange none none (.finite 0) (.finite 0) = Except.ok (0, 1)
    ∧ (npHistogramCounts 0 1 2 [.finite 0, .nan]).sum
        ≠ ([PyFloat.finite 0, PyFloat.nan]).length
    ∧ (justifiedDifference [.finite 0, .nan] 0 1 = false →
        computePlottableOneCase none none (.finite 0) (.finite 0) 2 [.finite 0, .nan]
          = Except.error "Not all samples are included in the scalar value histogram") := by
  have hr : resolveAnalysisRange none none (.finite 0) (.finite 0) = Except.ok (0, 1) := by
    show rangeWidenCheck 0 0 = Except.ok (0, 1)
    rw [rangeWidenCheck, if_pos rfl]
    norm_num
  have hbi : binIndexNp 0 1 2 (.finite 0) = some 0 := by
    rw [binIndexNp]
    norm_num
  have hcounts : npHistogramCounts 0 1 2 [.finite 0, .nan] = [1, 0] := by
    rw [npHistogramCounts]
    simp only [List.filter, PyFloat.isNanB, Bool.not_false, Bool.not_true]
    rw [show List.range 2 = [0, 1] from rfl]
    simp [List.countP, List.countP.go, hbi]
  have hsum : (npHistogramCounts 0 1 2 [.finite 0, .nan]).sum
      ≠ ([PyFloat.finite 0, PyFloat.nan]).length := by
    rw [hcounts]
    simp
  exact ⟨by norm_num, hr, hsum,
    (claim_C1 none none (.finite 0) (.finite 0) 2 [.finite 0, .nan] 0 1
      (by norm_num) hr hsum).1⟩

/-- Sum of a function mapped over `List.range`, as a `Finset` sum. -/
theorem mapRangeSum (f : ℕ → ℕ) (n : ℕ) :
    ((List.range n).map f).sum = ∑ j ∈ Finset.range n, f j := by
  induction n with
  | zero => simp
  | succ n ih =>
    rw [List.range_succ, List.map_append, List.sum_append, Finset.sum_range_succ, ih]
    simp

/-- Partition counting: when every list element is assigned to exactly one
bin index below `n`, the per-bin counts sum to the list length. -/
theorem countP_bin_total {α : Type} (f : α → Option ℕ) (n : ℕ) (l : List α)
    (h : ∀ x ∈ l, ∃ j, j < n ∧ f x = some j) :
    ((List.range n).map (fun j => l.countP (fun x => f x == some j))).sum = l.length := by
  rw [mapRangeSum]
  induction l with
  | nil => simp
  | cons x t ih =>
    obtain ⟨j0, hj0n, hfx⟩ := h x (List.mem_cons_self x t)
    have ht := ih (fun y hy => h y (List.mem_cons_of_mem x hy))
    simp only [List.countP_cons]
    rw [Finset.sum_add_distrib, ht]
    have hone : (∑ j ∈ Finset.range n, if (f x == some j) = true then 1 else 0) = 1 := by
      have heach : ∀ j, (if (f x == some j) = true then 1 else 0)
          = if j0 = j then 1 else 0 := by
        intro j
        rw [hfx]
        simp [beq_iff_eq]
      rw [Finset.sum_congr rfl (fun j _ => heach j), Finset.sum_ite_eq]
      rw [if_pos (Finset.mem_range.mpr hj0n)]
    rw [hone, List.length_cons]

/-- Sum of a list of naturals each divided by the same rational. -/
theorem list_map_div_sum (l : List ℕ) (d : ℚ) :
    (l.map (fun (c : ℕ) => (c : ℚ) / d)).sum = ((l.sum : ℕ) : ℚ) / d := by
  induction l with
  | nil => simp
  | cons x t ih =>
    simp only [List.map_cons, List.sum_cons, ih]
    push_cast
    ring

/-- C4: for a non-empty sample set with no non-finite values, analyzed over
the range given by its own recorded minimum and maximum, the histogram
computation succeeds and its relative-frequency y values sum to 1 (within
the 1e-9 tolerance of the claim — here the sum is exact). -/
theorem claim_C4 (qs : List ℚ) (m M : ℚ) (bins : ℕ)
    (hbins : bins ≠ 0) (hmin : qs.min? = some m) (hmax : qs.max? = some M) :
    ∃ out,
      computePlottableOneCase none none (.finite m) (.finite M) bins
          (qs.map PyFloat.finite)
        = Except.ok out
      ∧ |out.yValues.sum - 1| ≤ 1 / 1000000000 := by
  haveI : Std.Antisymm ((· : ℚ) ≤ ·) := ⟨fun h h' => le_antisymm h h'⟩
  obtain ⟨hmMem, hmLe⟩ :=
    (List.min?_eq_some_iff (fun a => le_refl a) (fun a b => min_choice a b)
      (fun a b c => le_min_iff)).mp hmin
  obtain ⟨hMMem, hMLe⟩ :=
    (List.max?_eq_some_iff (fun a => le_refl a) (fun a b => max_choice a b)
      (fun a b c => max_le_iff)).mp hmax
  have hmM : m ≤ M := hMLe m hmMem
  have hrng : ∃ lo hi,
      resolveAnalysisRange none none (.finite m) (.finite M) = Except.ok (lo, hi)
      ∧ lo ≤ m ∧ M ≤ hi := by
    by_cases heq : m = M
    · refine ⟨m, m + 1, ?_, le_refl m, ?_⟩
      · show rangeWidenCheck m M = _
        rw [rangeWidenCheck, if_pos heq]
      · rw [← heq]
        linarith
    · refine ⟨m, M, ?_, le_refl m, le_refl M⟩
      show rangeWidenCheck m M = _
      rw [rangeWidenCheck, if_neg heq, if_neg (not_lt.mpr hmM)]
  obtain ⟨lo, hi, hrok, hlom, hMhi⟩ := hrng
  have hfilter : (qs.map PyFloat.finite).filter (fun x => !x.isNanB)
      = qs.map PyFloat.finite := by
    apply List.filter_eq_self.mpr
    intro a ha
    obtain ⟨q, hq, rfl⟩ := List.mem_map.mp ha
    rfl
  have hcnt : (npHistogramCounts lo hi bins (qs.map PyFloat.finite)).sum
      = (qs.map PyFloat.finite).length := by
    rw [npHistogramCounts, hfilter]
    apply countP_bin_total
    intro x hx
    obtain ⟨q, hq, rfl⟩ := List.mem_map.mp hx
    refine ⟨min (⌊(q - lo) * bins / (hi - lo)⌋).toNat (bins - 1), ?_, ?_⟩
    · exact lt_of_le_of_lt (min_le_right _ _)
        (Nat.sub_lt (Nat.pos_of_ne_zero hbins) one_pos)
    · simp only [binIndexNp]
      rw [if_pos ⟨le_trans hlom (hmLe q hq), le_trans (hMLe q hq) hMhi⟩]
  have hlenq : (qs.map PyFloat.finite).length = qs.length := List.length_map qs _
  have hqne : qs ≠ [] := by
    intro h0
    rw [h0] at hmin
    simp at hmin
  have hpos : (qs.map PyFloat.finite).length ≠ 0 := by
    rw [hlenq]
    exact fun h0 => hqne (List.length_eq_zero.mp h0)
  rw [computePlottableOneCase, if_neg hbins, hrok]
  have hred :
      (match Except.ok (lo, hi) with
        | Except.error e => (Except.error e : Except String HistOutput)
        | Except.ok (lo, hi) => histogramCase bins (qs.map PyFloat.finite) lo hi)
      = histogramCase bins (qs.map PyFloat.finite) lo hi := rfl
  rw [hred, histogramCase, if_neg (by simp [hcnt])]
  refine ⟨_, rfl, ?_⟩
  show |(if (npHistogramCounts lo hi bins (qs.map PyFloat.finite)).sum ≠ 0 then
      (npHistogramCounts lo hi bins (qs.map PyFloat.finite)).map
        (fun (c : ℕ) => (c : ℚ) / ((npHistogramCounts lo hi bins (qs.map PyFloat.finite)).sum : ℚ))
    else (npHistogramCounts lo hi bins (qs.map PyFloat.finite)).map
      (fun (c : ℕ) => (c : ℚ))).sum - 1| ≤ 1 / 1000000000
  rw [if_pos (by rw [hcnt]; exact hpos), list_map_div_sum, hcnt]
  rw [div_self (Nat.cast_ne_zero.mpr hpos)]
  norm_num

/-- Witness for C4: the singleton sample list containing 5, with 3 bins. -/
theorem claim_C4_witness :
    ((3 : ℕ) ≠ 0) ∧ [(5 : ℚ)].min? = some 5 ∧ [(5 : ℚ)].max? = some 5
    ∧ ∃ out,
        computePlottableOneCase none none (.finite 5) (.finite 5) 3
            ([(5 : ℚ)].map PyFloat.finite)
          = Except.ok out
        ∧ |out.yValues.sum - 1| ≤ 1 / 1000000000 :=
  ⟨by norm_num, rfl, rfl, claim_C4 [5] 5 5 3 (by norm_num) rfl rfl⟩

set_option maxHeartbeats 1000000 in
/-- C5: a degenerate analysis range `lo == hi` is widened to `[lo, lo + 1]`;
consequently a 50-sample column of any constant finite value `v` with 10 bins
succeeds (no division error: the guarded normalization divides by the total
count 50), and the resulting histogram has exactly one non-zero bin — the
first — holding all 50 samples, with relative frequency 1. -/
theorem claim_C5 :
    (∀ (a : ℚ) (gmin gmax : PyFloat),
      resolveAnalysisRange (some a) (some a) gmin gmax = Except.ok (a, a + 1))
    ∧ ∀ v : ℚ, ∃ out,
        computePlottableOneCase none none (.finite v) (.finite v) 10
            (List.replicate 50 (.finite v)) = Except.ok out
        ∧ out.counts = 50 :: List.replicate 9 0
        ∧ out.yValues = 1 :: List.replicate 9 0 := by
  constructor
  · intro a gmin gmax
    show rangeWidenCheck a a = _
    rw [rangeWidenCheck, if_pos rfl]
  · intro v
    have hr : resolveAnalysisRange none none (.finite v) (.finite v)
        = Except.ok (v, v + 1) := by
      show rangeWidenCheck v v = _
      rw [rangeWidenCheck, if_pos rfl]
    have hbi : binIndexNp v (v + 1) 10 (.finite v) = some 0 := by
      simp only [binIndexNp]
      rw [if_pos ⟨le_refl v, by linarith⟩]
      rw [show (v - v) * ((10 : ℕ) : ℚ) / (v + 1 - v) = 0 by
        rw [sub_self, zero_mul, zero_div]]
      simp
    have hfilter : (List.replicate 50 (PyFloat.finite v)).filter (fun x => !x.isNanB)
        = List.replicate 50 (PyFloat.finite v) := by
      apply List.filter_eq_self.mpr
      intro a ha
      rw [List.eq_of_mem_replicate ha]
      rfl
    have hcounts : npHistogramCounts v (v + 1) 10 (List.replicate 50 (.finite v))
        = 50 :: List.replicate 9 0 := by
      rw [npHistogramCounts, hfilter]
      have hfun : ∀ j ∈ List.range 10,
          (List.replicate 50 (PyFloat.finite v)).countP
            (fun x => binIndexNp v (v + 1) 10 x == some j)
          = if j = 0 then 50 else 0 := by
        intro j hj
        rw [List.countP_replicate, hbi]
        by_cases hj0 : j = 0
        · subst hj0
          simp
        · simp [hj0, Ne.symm hj0]
      rw [List.map_congr_left hfun]
      decide
    have hsum : (npHistogramCounts v (v + 1) 10 (List.replicate 50 (.finite v))).sum
        = 50 := by
      rw [hcounts]
      decide
    have hlen : (List.replicate 50 (PyFloat.finite v)).length = 50 :=
      List.length_replicate 50 _
    rw [computePlottableOneCase, if_neg (by decide : ¬(10 = 0)), hr]
    have hred :
        (match Except.ok (v, v + 1) with
          | Except.error e => (Except.error e : Except String HistOutput)
          | Except.ok (lo, hi) =>
            histogramCase 10 (List.replicate 50 (.finite v)) lo hi)
        = histogramCase 10 (List.replicate 50 (.finite v)) v (v + 1) := rfl
    have hcond : ¬((npHistogramCounts v (v + 1) 10 (List.replicate 50 (.finite v))).sum
          ≠ (List.replicate 50 (PyFloat.finite v)).length
        ∧ justifiedDifference (List.replicate 50 (.finite v)) v (v + 1) = false) := by
      intro h
      exact h.1 (by rw [hsum, hlen])
    have hne : (npHistogramCounts v (v + 1) 10 (List.replicate 50 (.finite v))).sum ≠ 0 := by
      rw [hsum]
      norm_num
    rw [hred, histogramCase, if_neg hcond]
    refine ⟨_, rfl, hcounts, ?_⟩
    show (if (npHistogramCounts v (v + 1) 10 (List.replicate 50 (.finite v))).sum ≠ 0 then
        (npHistogramCounts v (v + 1) 10 (List.replicate 50 (.finite v))).map
          (fun (c : ℕ) => (c : ℚ)
            / ((npHistogramCounts v (v + 1) 10 (List.replicate 50 (.finite v))).sum : ℚ))
      else (npHistogramCounts v (v + 1) 10 (List.replicate 50 (.finite v))).map
        (fun (c : ℕ) => (c : ℚ)))
      = 1 :: List.replicate 9 0
    rw [if_pos hne, hsum, hcounts]
    rw [List.map_cons, List.map_replicate]
    norm_num

/-- Characterization of the row-count check once the first count is recorded:
it succeeds exactly when every remaining task has the recorded count, and an
error names a remaining task whose count differs. -/
theorem checkTaskRowCounts_some (rowCount : String → ℕ) (n : ℕ) (ts : List String) :
    (checkTaskRowCounts rowCount (some n) ts = Except.ok ()
      ↔ ∀ t ∈ ts, rowCount t = n)
    ∧ (∀ t, checkTaskRowCounts rowCount (some n) ts = Except.error t
        → t ∈ ts ∧ rowCount t ≠ n) := by
  induction ts with
  | nil => simp [checkTaskRowCounts]
  | cons t ts ih =>
    by_cases h : rowCount t = n
    · simp only [checkTaskRowCounts, if_pos h]
      constructor
      · constructor
        · intro hok u hu
          rcases List.mem_cons.mp hu with hrfl | hu'
          · rw [hrfl]
            exact h
          · exact ih.1.mp hok u hu'
        · intro hall
          exact ih.1.mpr fun u hu => hall u (List.mem_cons_of_mem _ hu)
      · intro u hu
        obtain ⟨hmem, hne⟩ := ih.2 u hu
        exact ⟨List.mem_cons_of_mem _ hmem, hne⟩
    · simp only [checkTaskRowCounts, if_neg h]
      constructor
      · constructor
        · intro hok
          exact absurd hok (by simp)
        · intro hall
          exact absurd (hall t (List.mem_cons_self t ts)) h
      · intro u hu
        injection hu with h2
        rw [← h2]
        exact ⟨List.mem_cons_self t ts, h⟩

/-- C7: over the flattened task families, the comparative line analyzer's
row-count validation succeeds exactly when every task after the first
contributes the same number of rows as the first task encountered; on
mismatch the raised error identifies the offending task, whose count differs
from the first task's. -/
theorem claim_C7 (rowCount : String → ℕ) (families : List (List String))
    (t0 : String) (rest : List String)
    (hflat : families.flatten = t0 :: rest) :
    (twoColumnLineRowCountCheck families rowCount = Except.ok ()
      ↔ ∀ t ∈ rest, rowCount t = rowCount t0)
    ∧ (∀ t, twoColumnLineRowCountCheck families rowCount = Except.error t
        → t ∈ rest ∧ rowCount t ≠ rowCount t0) := by
  rw [twoColumnLineRowCountCheck, hflat]
  simp only [checkTaskRowCounts]
  exact checkTaskRowCounts_some rowCount (rowCount t0) rest

/-- Witness for C7: two families whose tasks contribute 1 and 2 rows
respectively (row count modelled by the length of the task name). -/
theorem claim_C7_witness :
    ([["a"], ["bb"]] : List (List String)).flatten = "a" :: ["bb"]
    ∧ ("bb" ∈ ["bb"]
      ∧ (fun t : String => t.length) "bb" ≠ (fun t : String => t.length) "a") :=
  ⟨rfl, (claim_C7 (fun t => t.length) [["a"], ["bb"]] "a" ["bb"] rfl).2 "bb" rfl⟩

/-- C6: constructing an analyzer succeeds exactly when every selected render
mode is in the set of valid render modes; equivalently, any selected mode
outside the valid set makes `Analyzer.__init__` raise (before any group is
processed or any render job is dispatched, since the check runs in the
constructor). -/
theorem claim_C6 (validModes selectedModes : List String) :
    analyzerInitModeCheck validModes selectedModes = Except.ok ()
      ↔ ∀ m ∈ selectedModes, m ∈ validModes := by
  rw [analyzerInitModeCheck]
  cases hf : selectedModes.find? (fun m => !(validModes.contains m)) with
  | none =>
    constructor
    · intro _ m hm
      have hp := List.find?_eq_none.mp hf m hm
      simpa [List.contains] using hp
    · intro _
      rfl
  | some m =>
    have hmem : m ∈ selectedModes := List.mem_of_find?_eq_some hf
    have hpred := List.find?_some hf
    constructor
    · intro hok
      exact absurd hok (by simp)
    · intro hall
      have hmv : m ∈ validModes := hall m hmem
      have : validModes.contains m = false := by
        revert hpred
        cases validModes.contains m <;> simp
      simp [List.contains] at this
      exact absurd hmv this

/-- Python `min` with `-inf` on the left absorbs any argument. -/
theorem pyMin_negInf (x : PyFloat) : pyMin PyFloat.negInf x = PyFloat.negInf := by
  cases x <;> rfl

/-- The `global_max_x` accumulator stays `-inf` forever, because the source
folds with `min` instead of `max`. -/
theorem foldl_pyMin_negInf (f : List ℚ → PyFloat) (xss : List (List ℚ)) :
    xss.foldl (fun acc xs => pyMin acc (f xs)) PyFloat.negInf = PyFloat.negInf := by
  induction xss with
  | nil => rfl
  | cons xs t ih =>
    rw [List.foldl_cons, pyMin_negInf]
    exact ih

/-- C9 (code behaviour): the x-axis bounds passed to rendering are always
`(None, None)`, for every input — in particular for a single line with
x values `[1, 3]` and column properties `plot_min=0, plot_max=100`, where the
claim expects bounds `(0, 100)` (or `(1, 3)` without the override).  The
upper bound is accumulated with `min` starting from `-inf`, so it stays
`-inf`; the subsequent `isinf` guard then replaces both bounds by `None`,
and the column-property values read earlier were already overwritten. -/
theorem claim_C9_code_behavior :
    computeGlobalXBounds (some 0, some 100) [[1, 3]] = (none, none)
    ∧ ∀ (plotProps : Option ℚ × Option ℚ) (xss : List (List ℚ)),
        computeGlobalXBounds plotProps xss = (none, none) := by
  have hall : ∀ (plotProps : Option ℚ × Option ℚ) (xss : List (List ℚ)),
      computeGlobalXBounds plotProps xss = (none, none) := by
    intro plotProps xss
    rw [computeGlobalXBounds, foldl_pyMin_negInf]
    rw [if_pos (by simp [PyFloat.isInfB])]
  exact ⟨hall _ _, hall⟩

/-- Heads of lexicographically ordered nonempty rational lists are ordered. -/
theorem le_headI_of_le {a b : List ℚ} (hab : a ≤ b) (ha : a ≠ []) :
    a.headI ≤ b.headI := by
  cases a with
  | nil => exact absurd rfl ha
  | cons x as =>
    cases b with
    | nil =>
      exact absurd (List.nil_lt_cons x as) (not_lt.mpr hab)
    | cons y bs =>
      by_contra hxy
      push_neg at hxy
      have hlt : (y :: bs) < (x :: as) := by
        show List.Lex (· < ·) (y :: bs) (x :: as)
        exact List.Lex.rel hxy
      exact absurd hlt (not_lt.mpr hab)

/-- A chain under the list order whose members are all nonempty is a chain
of head values. -/
theorem chain'_headI_of_chain' :
    ∀ l : List (List ℚ), (∀ t ∈ l, t ≠ []) → List.Chain' (· ≤ ·) l →
      List.Chain' (fun a b : List ℚ => a.headI ≤ b.headI) l
  | [], _, _ => List.chain'_nil
  | [_], _, _ => List.chain'_singleton _
  | a :: b :: t, hne, hch => by
    rw [List.chain'_cons] at hch ⊢
    refine ⟨le_headI_of_le hch.1 (hne a (List.mem_cons_self a _)), ?_⟩
    exact chain'_headI_of_chain' (b :: t)
      (fun u hu => hne u (List.mem_cons_of_mem a hu)) hch.2

/-- C8: for every family input (arbitrary per-task x/y data, in arbitrary
order), the per-task mean points are sorted by x before the line descriptor
is built, so the x_values sequence of the produced LineData is
non-decreasing. -/
theorem claim_C8 (tasks : List (List ℚ × List ℚ)) :
    List.Chain' (· ≤ ·) (lineDataXValues tasks) := by
  have hne : ∀ t ∈ familySortedData tasks, t ≠ [] := by
    intro t ht
    rw [familySortedData] at ht
    have hmem := (List.mem_insertionSort _).mp ht
    obtain ⟨p, _, hp⟩ := List.mem_filterMap.mp hmem
    rw [taskStats] at hp
    by_cases hc : p.1 = [] ∨ p.2 = []
    · rw [if_pos hc] at hp
      cases hp
    · rw [if_neg hc] at hp
      injection hp with hp2
      rw [← hp2]
      simp
  have hsorted : List.Sorted (· ≤ ·) (familySortedData tasks) :=
    List.sorted_insertionSort _ _
  rw [lineDataXValues, List.chain'_map]
  exact chain'_headI_of_chain' _ hne hsorted.chain'

/-- Reading back a freshly assigned key. -/
theorem kwGet_kwSet_self {V : Type} (kw : List (String × V)) (k : String) (v : V) :
    kwGet (kwSet kw k v) k = some v := by
  rw [kwSet, kwGet, List.find?_cons_of_pos _ (by simp)]
  rfl

/-- Filtering out pairs with key different from the lookup key does not
change the lookup. -/
theorem find?_filter_ne {V : Type} (k k' : String) (h : k ≠ k') :
    ∀ kw : List (String × V),
      (kw.filter (fun p => !(p.1 == k'))).find? (fun p => p.1 == k)
        = kw.find? (fun p => p.1 == k)
  | [] => rfl
  | p :: t => by
    by_cases hp' : p.1 = k'
    · rw [List.filter_cons_of_neg (by simp [hp'])]
      rw [find?_filter_ne k k' h t]
      rw [List.find?_cons_of_neg _ (by simp [hp']; exact fun hh => h hh.symm)]
    · rw [List.filter_cons_of_pos (by simp [hp'])]
      by_cases hpk : p.1 = k
      · rw [List.find?_cons_of_pos _ (by simp [hpk]),
          List.find?_cons_of_pos _ (by simp [hpk])]
      · rw [List.find?_cons_of_neg _ (by simp [hpk]),
          List.find?_cons_of_neg _ (by simp [hpk])]
        exact find?_filter_ne k k' h t

/-- Assigning a different key does not change a lookup. -/
theorem kwGet_kwSet_ne {V : Type} (kw : List (String × V)) (k k' : String) (v : V)
    (h : k ≠ k') : kwGet (kwSet kw k' v) k = kwGet kw k := by
  rw [kwSet, kwGet, List.find?_cons_of_neg _ (by simp; exact fun hh => h hh.symm)]
  rw [find?_filter_ne k k' h kw]
  rfl

/-- A present binding survives any conditional fill-in. -/
theorem kwGet_kwSetIfAbsent_of_some {V : Type} {kw : List (String × V)} {k : String}
    {v : V} (k' : String) (w : V) (h : kwGet kw k = some v) :
    kwGet (kwSetIfAbsent kw k' w) k = some v := by
  rw [kwSetIfAbsent]
  by_cases hk' : (kwGet kw k').isSome
  · rw [if_pos hk']
    exact h
  · rw [if_neg hk']
    by_cases hkk : k = k'
    · subst hkk
      rw [h] at hk'
      simp at hk'
    · rw [kwGet_kwSet_ne _ _ _ _ hkk]
      exact h

/-- A present binding survives the `global_y_label` step. -/
theorem kwGet_yLabelStep_of_some {V : Type} (ctx : RenderCtx V)
    {kw : List (String × V)} {k : String} {v : V} (h : kwGet kw k = some v) :
    kwGet (yLabelStep ctx kw) k = some v := by
  rw [yLabelStep]
  by_cases h1 : (kwGet kw "global_y_label").isSome
  · rw [if_pos h1]
    exact h
  · rw [if_neg h1]
    by_cases hkg : k = "global_y_label"
    · subst hkg
      rw [h] at h1
      simp at h1
    · by_cases h2 : ctx.mainAlpha ≠ 0
      · rw [if_pos h2, kwGet_kwSet_ne _ _ _ _ hkg]
        exact h
      · rw [if_neg h2]
        by_cases h3 : ctx.secondaryAlpha ≠ 0
        · rw [if_pos h3, kwGet_kwSet_ne _ _ _ _ hkg]
          exact h
        · rw [if_neg h3]
          exact h

/-- A present binding survives the common-scale y-bound step. -/
theorem kwGet_yBoundsStep_of_some {V : Type} (ctx : RenderCtx V)
    {kw : List (String × V)} {k : String} {v : V} (h : kwGet kw k = some v) :
    kwGet (yBoundsStep ctx kw) k = some v := by
  rw [yBoundsStep]
  by_cases hc : ctx.commonGroupScale
      ∧ ((kwGet kw "y_min").isNone ∨ (kwGet kw "y_max").isNone)
  · rw [if_pos hc]
    exact kwGet_kwSetIfAbsent_of_some _ _ (kwGet_kwSetIfAbsent_of_some _ _ h)
  · rw [if_neg hc]
    exact h

/-- A binding of any key other than the two always-overwritten ones survives
the base update. -/
theorem kwGet_analyzerUpdate_of_some {V : Type} (ctx : RenderCtx V)
    {kw : List (String × V)} {k : String} {v : V} (h : kwGet kw k = some v)
    (h1 : k ≠ "output_plot_path") (h2 : k ≠ "pds_by_group_name") :
    kwGet (analyzerUpdateRenderKwargs ctx kw) k = some v := by
  rw [analyzerUpdateRenderKwargs]
  apply kwGet_kwSetIfAbsent_of_some
  apply kwGet_kwSetIfAbsent_of_some
  apply kwGet_kwSetIfAbsent_of_some
  rw [kwGet_kwSet_ne _ _ _ _ h2, kwGet_kwSet_ne _ _ _ _ h1]
  exact h

/-- C10: every caller-supplied binding of the keys `column_properties`,
`global_x_label`, `global_y_label`, `y_labels_by_group_name`, `x_min`,
`x_max`, `y_min`, `y_max` is returned unchanged by
`ScalarNumericAnalyzer.update_render_kwargs_one_case` (which only fills these
keys in when absent), while `output_plot_path` and `pds_by_group_name` are
always overwritten with the computed values. -/
theorem claim_C10 {V : Type} (ctx : RenderCtx V) (kw : List (String × V))
    (k : String) (v : V)
    (hk : k = "column_properties" ∨ k = "global_x_label" ∨ k = "global_y_label"
      ∨ k = "y_labels_by_group_name" ∨ k = "x_min" ∨ k = "x_max"
      ∨ k = "y_min" ∨ k = "y_max")
    (hv : kwGet kw k = some v) :
    kwGet (scalarNumericUpdateRenderKwargs ctx kw) k = some v
    ∧ kwGet (scalarNumericUpdateRenderKwargs ctx kw) "output_plot_path"
        = some ctx.outputPlotPath
    ∧ kwGet (scalarNumericUpdateRenderKwargs ctx kw) "pds_by_group_name"
        = some ctx.pdsByGroupName := by
  have h1 : k ≠ "output_plot_path" := by
    rcases hk with rfl | rfl | rfl | rfl | rfl | rfl | rfl | rfl <;> decide
  have h2 : k ≠ "pds_by_group_name" := by
    rcases hk with rfl | rfl | rfl | rfl | rfl | rfl | rfl | rfl <;> decide
  refine ⟨?_, ?_, ?_⟩
  · rw [scalarNumericUpdateRenderKwargs]
    exact kwGet_yBoundsStep_of_some _ (kwGet_kwSetIfAbsent_of_some _ _
      (kwGet_kwSetIfAbsent_of_some _ _ (kwGet_yLabelStep_of_some _
        (kwGet_analyzerUpdate_of_some _ hv h1 h2))))
  · have hbase : kwGet (analyzerUpdateRenderKwargs ctx kw) "output_plot_path"
        = some ctx.outputPlotPath := by
      rw [analyzerUpdateRenderKwargs]
      apply kwGet_kwSetIfAbsent_of_some
      apply kwGet_kwSetIfAbsent_of_some
      apply kwGet_kwSetIfAbsent_of_some
      rw [kwGet_kwSet_ne _ _ _ _ (by decide)]
      exact kwGet_kwSet_self _ _ _
    rw [scalarNumericUpdateRenderKwargs]
    exact kwGet_yBoundsStep_of_some _ (kwGet_kwSetIfAbsent_of_some _ _
      (kwGet_kwSetIfAbsent_of_some _ _ (kwGet_yLabelStep_of_some _ hbase)))
  · have hbase : kwGet (analyzerUpdateRenderKwargs ctx kw) "pds_by_group_name"
        = some ctx.pdsByGroupName := by
      rw [analyzerUpdateRenderKwargs]
      apply kwGet_kwSetIfAbsent_of_some
      apply kwGet_kwSetIfAbsent_of_some
      apply kwGet_kwSetIfAbsent_of_some
      exact kwGet_kwSet_self _ _ _
    rw [scalarNumericUpdateRenderKwargs]
    exact kwGet_yBoundsStep_of_some _ (kwGet_kwSetIfAbsent_of_some _ _
      (kwGet_kwSetIfAbsent_of_some _ _ (kwGet_yLabelStep_of_some _ hbase)))

/-- Witness for C10: a caller-supplied `x_min` binding in a one-entry kwargs
dictionary, with a concrete context over natural-number values. -/
theorem claim_C10_witness :
    (("x_min" : String) = "column_properties" ∨ ("x_min" : String) = "global_x_label"
      ∨ ("x_min" : String) = "global_y_label"
      ∨ ("x_min" : String) = "y_labels_by_group_name"
      ∨ ("x_min" : String) = "x_min" ∨ ("x_min" : String) = "x_max"
      ∨ ("x_min" : String) = "y_min" ∨ ("x_min" : String) = "y_max")
    ∧ kwGet [("x_min", (5 : ℕ))] "x_min" = some 5
    ∧ (kwGet (scalarNumericUpdateRenderKwargs
          (⟨1, 2, 3, 4, 6, 0, 0, 7, 8, 9, 10, 11, true, 12, 13⟩ : RenderCtx ℕ)
          [("x_min", 5)]) "x_min" = some 5
      ∧ kwGet (scalarNumericUpdateRenderKwargs
          (⟨1, 2, 3, 4, 6, 0, 0, 7, 8, 9, 10, 11, true, 12, 13⟩ : RenderCtx ℕ)
          [("x_min", 5)]) "output_plot_path" = some 1
      ∧ kwGet (scalarNumericUpdateRenderKwargs
          (⟨1, 2, 3, 4, 6, 0, 0, 7, 8, 9, 10, 11, true, 12, 13⟩ : RenderCtx ℕ)
          [("x_min", 5)]) "pds_by_group_name" = some 2) :=
  ⟨Or.inr (Or.inr (Or.inr (Or.inr (Or.inl rfl)))), rfl,
    claim_C10 ⟨1, 2, 3, 4, 6, 0, 0, 7, 8, 9, 10, 11, true, 12, 13⟩ [("x_min", 5)]
      "x_min" 5 (Or.inr (Or.inr (Or.inr (Or.inr (Or.inl rfl))))) rfl⟩
